import Mathlib

/-
  Verification of the CuraScan report-value extraction and classification core.

  Embedded source functions:
  * parseExtractedValues  (frontend parser, scans report text into records)
  * applyHemoglobinRule   (backend/routes/process.js, hemoglobin override step)

  Numeric model: the JS code calls parseFloat on decimal substrings captured by
  the regex [0-9]+(\.[0-9]+)?, so every parsed number is a nonnegative decimal.
  We represent such a number exactly as a pair (num, exp) denoting num / 10^exp,
  with an interpretation DecNum.toRat into the rationals.  Comparisons are by
  cross multiplication over Nat, proved equivalent to the rational order.
-/

/-- An exact nonnegative decimal number: `num / 10 ^ exp`. -/
structure DecNum where
  num : Nat
  exp : Nat
deriving DecidableEq, Repr

/-- The rational value denoted by a `DecNum`. -/
def DecNum.toRat (d : DecNum) : ℚ := (d.num : ℚ) / (10 : ℚ) ^ d.exp

/-- Strict order on decimals, by cross multiplication (kernel computable). -/
def DecNum.lt (a b : DecNum) : Bool := decide (a.num * 10 ^ b.exp < b.num * 10 ^ a.exp)

/- ===== Character helpers (JS semantics) ===== -/

/-- Whitespace recognised by the JS regex class `\s` and by `String.trim`:
the full ECMAScript WhiteSpace and LineTerminator sets — tab, LF, VT, FF, CR,
space, NBSP, U+1680, U+2000 through U+200A, U+2028, U+2029, U+202F, U+205F,
U+3000 and the BOM U+FEFF.  The Unicode members survive normalization (which
only rewrites CRLF and NBSP), so they must be recognised here. -/
def isJsSpace (c : Char) : Bool :=
  c == '\t' || c == '\n' || c == '\x0b' || c == '\x0c' || c == '\r' ||
  c == ' ' || c == '\u00A0' || c == '\u1680' ||
  c == '\u2000' || c == '\u2001' || c == '\u2002' || c == '\u2003' ||
  c == '\u2004' || c == '\u2005' || c == '\u2006' || c == '\u2007' ||
  c == '\u2008' || c == '\u2009' || c == '\u200A' ||
  c == '\u2028' || c == '\u2029' || c == '\u202F' || c == '\u205F' ||
  c == '\u3000' || c == '\uFEFF'

/-- Head of the list is a decimal digit. -/
def headIsDigit : List Char → Bool
  | c :: _ => c.isDigit
  | [] => false

/-- Numeric value of a digit string (most significant first). -/
def digitsVal (ds : List Char) : Nat :=
  ds.foldl (fun n c => n * 10 + (c.toNat - '0'.toNat)) 0

/-- The decimal denoted by an integer digit run and a fractional digit run,
exactly as parseFloat reads the captured substring. -/
def decOf (ip fp : List Char) : DecNum :=
  ⟨digitsVal ip * 10 ^ fp.length + digitsVal fp, fp.length⟩

/- ===== Normalization and line splitting =====
   JS source: s = text.replace(/\r\n/g, "\n").replace(/ /g, " ");
              lines = s.split(/\n+/).map(l => l.trim()).filter(Boolean);  -/

/-- One pass replacing every CRLF by LF and every NBSP by a space (the two
substitutions touch disjoint characters, so one pass equals the two global
replaces of the source). -/
def normalizeChars : List Char → List Char
  | '\r' :: '\n' :: rest => '\n' :: normalizeChars rest
  | c :: rest => (if c = ' ' then ' ' else c) :: normalizeChars rest
  | [] => []

/-- JS String.trim on a normalized line. -/
def trimChars (l : List Char) : List Char :=
  ((l.dropWhile isJsSpace).reverse.dropWhile isJsSpace).reverse

/-- The non-empty trimmed lines of the normalized text.  The source splits on
the regex `\n+`; splitting at every single newline instead produces extra
empty segments between consecutive newlines, all of which are removed by the
same `filter(Boolean)` that the source applies, so the results coincide. -/
def parsedLines (s : String) : List (List Char) :=
  (((normalizeChars s.toList).splitOn '\n').map trimChars).filter (fun l => !l.isEmpty)

/- ===== Number extraction =====
   JS source: Array.from(l.matchAll(/([0-9]+(?:\.[0-9]+)?)/g), m => parseFloat(m[1]))
   Left to right, non-overlapping, greedy: a maximal digit run, optionally
   followed by a dot and a further maximal digit run. -/

/-- Scanner state machine for the global number regex.  `intAcc` holds the
digits of the integer part of the number currently being read (empty when no
number is being read), `fracAcc` the digits of its fractional part, `inFrac`
whether the dot has been consumed.  The dot is consumed only when a digit
follows, exactly as the optional group `(?:\.[0-9]+)?` requires. -/
def numsAux : List Char → List Char → List Char → Bool → List DecNum
  | [], intAcc, fracAcc, _ =>
    if intAcc.isEmpty then [] else [decOf intAcc fracAcc]
  | c :: rest, intAcc, fracAcc, inFrac =>
    if c.isDigit then
      if inFrac then numsAux rest intAcc (fracAcc ++ [c]) true
      else numsAux rest (intAcc ++ [c]) [] false
    else if c == '.' && !intAcc.isEmpty && !inFrac && headIsDigit rest then
      numsAux rest intAcc [] true
    else if intAcc.isEmpty then numsAux rest [] [] false
    else decOf intAcc fracAcc :: numsAux rest [] [] false

/-- All numeric substrings of a line, in left-to-right order. -/
def extractNums (cs : List Char) : List DecNum := numsAux cs [] [] false

/- ===== Inline range extraction =====
   JS source: l.match(/([0-9]+(?:\.[0-9]+)?)\s*[-–]\s*([0-9]+(?:\.[0-9]+)?)/)
   Leftmost match.  At a fixed start position only the greedy number parse can
   succeed: any backtracked (shorter) parse of the first group leaves a digit
   or a dot as the next character, which `\s*[-–]` cannot consume. -/

/-- Greedy parse of one number at the head of the list; returns the number and
the remaining characters. -/
def takeNum (cs : List Char) : Option (DecNum × List Char) :=
  match cs with
  | c :: _ =>
    if c.isDigit then
      match cs.dropWhile Char.isDigit with
      | dot :: r2 =>
        if dot == '.' && headIsDigit r2 then
          some (decOf (cs.takeWhile Char.isDigit) (r2.takeWhile Char.isDigit),
            r2.dropWhile Char.isDigit)
        else some (decOf (cs.takeWhile Char.isDigit) [], dot :: r2)
      | [] => some (decOf (cs.takeWhile Char.isDigit) [], [])
    else none
  | [] => none

/-- Attempt the range pattern at this exact start position. -/
def matchRangeAt (cs : List Char) : Option (DecNum × DecNum) :=
  match takeNum cs with
  | none => none
  | some (a, r1) =>
    match r1.dropWhile isJsSpace with
    | d :: r3 =>
      if d == '-' || d == '–' then
        match takeNum (r3.dropWhile isJsSpace) with
        | some (b, _) => some (a, b)
        | none => none
      else none
    | [] => none

/-- Leftmost occurrence of `<number> [-|–] <number>` in the line. -/
def findRange : List Char → Option (DecNum × DecNum)
  | [] => none
  | c :: rest =>
    match matchRangeAt (c :: rest) with
    | some r => some r
    | none => findRange rest

/- ===== Test-name registry =====
   Every pattern string in the source is a regex source whose only
   metacharacters are escapes of literal characters (\( \) \^), so after
   unescaping each pattern is a literal string and the case-insensitive regex
   test is a case-insensitive substring containment. -/

/-- One registry entry: canonical key and its surface-form patterns. -/
structure TestEntry where
  key : String
  names : List String
deriving DecidableEq, Repr

def registry : List TestEntry :=
  [ ⟨"Hemoglobin", ["Hemoglobin", "Hemoglobin (g/dL)"]⟩,
    ⟨"RBC", ["RBC", "RBC (10^6/µL)"]⟩,
    ⟨"WBC", ["WBC"]⟩,
    ⟨"Platelets", ["Platelets"]⟩,
    ⟨"Hematocrit", ["Hematocrit"]⟩,
    ⟨"MCV", ["MCV"]⟩,
    ⟨"MCH", ["MCH"]⟩,
    ⟨"MCHC", ["MCHC"]⟩,
    ⟨"Neutrophils", ["Neutrophils"]⟩,
    ⟨"Lymphocytes", ["Lymphocytes"]⟩,
    ⟨"Fasting Glucose", ["Fasting Glucose"]⟩,
    ⟨"Urea", ["Urea"]⟩,
    ⟨"Creatinine", ["Creatinine"]⟩,
    ⟨"Sodium", ["Sodium"]⟩,
    ⟨"Potassium", ["Potassium"]⟩,
    ⟨"ALT", ["ALT"]⟩,
    ⟨"AST", ["AST"]⟩ ]

/-- Case-insensitive substring containment of `needle` in `hay`. -/
def containsCI (hay needle : List Char) : Bool :=
  (hay.map Char.toLower).tails.any (fun t => (needle.map Char.toLower).isPrefixOf t)

/-- The case-insensitive regex test of one surface pattern against a line. -/
def nameMatches (nm : String) (l : List Char) : Bool :=
  containsCI l nm.toList

/- ===== Record construction ===== -/

/-- The record shape produced by the parser. -/
structure ExtractedValue where
  test : String
  line : String
  value : Option DecNum
  ref_lower : Option DecNum
  ref_upper : Option DecNum
deriving DecidableEq, Repr

/-- The record pushed by the source for a matched (line, entry) pairing:
value is the first number of the line or null, the ref bounds come from the
first inline range occurrence or are null. -/
def mkRec (key : String) (l : List Char) : ExtractedValue :=
  { test := key
    line := ⟨l⟩
    value := (extractNums l).head?
    ref_lower := (findRange l).map (fun r => r.1)
    ref_upper := (findRange l).map (fun r => r.2) }

/-- The record (if any) one registry entry contributes for one line: the
first matching surface pattern wins and the remaining patterns are skipped
(the `break` of the source); the record itself depends only on the canonical
key and the line. -/
def entryRecord (l : List Char) (t : TestEntry) : Option ExtractedValue :=
  (t.names.find? (fun nm => nameMatches nm l)).map (fun _ => mkRec t.key l)

/-- Records contributed by one line: each registry entry is tried
independently. -/
def perLineRecords (l : List Char) : List ExtractedValue :=
  registry.filterMap (entryRecord l)

/-- The pre-deduplication record list (the `found` array of the source). -/
def foundRecords (s : String) : List ExtractedValue :=
  (parsedLines s).flatMap perLineRecords

/-- Deduplication by test key, first occurrence kept (the `seen` set loop). -/
def dedupAux (seen : List String) : List ExtractedValue → List ExtractedValue
  | [] => []
  | f :: rest =>
    if seen.contains f.test then dedupAux seen rest
    else f :: dedupAux (f.test :: seen) rest

def dedupRecords (l : List ExtractedValue) : List ExtractedValue := dedupAux [] l

/-- The full parser.  `none` models an absent (null/undefined) argument; the
source guard `if (!text) return []` also catches the empty string. -/
def parseExtractedValues : Option String → List ExtractedValue
  | none => []
  | some s => if s = "" then [] else dedupRecords (foundRecords s)

/- ===== Classifier override step =====
   JS source (backend/routes/process.js):

   function applyHemoglobinRule(preds, items) {
     return preds.map((p) => {
       if (/hemoglobin/i.test(p.test)) {
         const testItem = items.find((x) => /hemoglobin/i.test(x.test));
         const sex = testItem?.sex || "M";
         const lower = sex === "F" ? 12.0 : 13.0;
         const upper = sex === "F" ? 16.0 : 17.5;
         if (p.value < lower) p.prediction = "low";
         else if (p.value > upper) p.prediction = "high";
         else p.prediction = "normal";
         p.rule_overridden = true;
       }
       return p;
     });
   }

   The callback assigns to fields of `p` itself and returns `p`, so the map
   output is the list of the (possibly mutated) input objects: the state of
   the input records after the call is exactly the returned list.  A null
   `value` is coerced by the JS relational operators via ToNumber(null) = 0. -/

/-- One prediction record of the `predictions` array. -/
structure PredRecord where
  test : String
  value : Option DecNum
  prediction : Option String
  rule_overridden : Bool
deriving DecidableEq, Repr

/-- One parsed item of the `items` array (the fields the override reads). -/
structure ItemRecord where
  test : String
  sex : Option String
deriving DecidableEq, Repr

/-- The test `/hemoglobin/i.test(s)`: case-insensitive substring containment. -/
def hasHemoglobin (s : String) : Bool := containsCI s.toList "hemoglobin".toList

/-- `items.find(hemoglobin)?.sex || "M"`: the sex of the first item whose test
name matches hemoglobin, defaulting to "M" when no such item exists or the
field is absent or empty (falsy). -/
def hemoSex (items : List ItemRecord) : String :=
  match items.find? (fun x => hasHemoglobin x.test) with
  | some it =>
    match it.sex with
    | some sx => if sx = "" then "M" else sx
    | none => "M"
  | none => "M"

/-- JS ToNumber of a nullable numeric field: null coerces to 0. -/
def jsNum : Option DecNum → DecNum
  | some d => d
  | none => ⟨0, 0⟩

def applyHemoglobinRule (preds : List PredRecord) (items : List ItemRecord) :
    List PredRecord :=
  preds.map fun p =>
    if hasHemoglobin p.test then
      let sex := hemoSex items
      let lower : DecNum := if sex = "F" then ⟨120, 1⟩ else ⟨130, 1⟩
      let upper : DecNum := if sex = "F" then ⟨160, 1⟩ else ⟨175, 1⟩
      { p with
        prediction := some (if (jsNum p.value).lt lower then "low"
                            else if DecNum.lt upper (jsNum p.value) then "high"
                            else "normal")
        rule_overridden := true }
    else p

/-- The state of the elements of the input array `preds` after the call: the
map callback of the source mutates each object in place and returns that same
object, so the post-call contents of `preds` are the returned records. -/
def inputRecordsAfter (preds : List PredRecord) (items : List ItemRecord) :
    List PredRecord :=
  applyHemoglobinRule preds items

/- ===================== Supporting lemmas ===================== -/

theorem DecNum.lt_iff (a b : DecNum) : a.lt b = true ↔ a.toRat < b.toRat := by
  unfold DecNum.lt DecNum.toRat
  rw [decide_eq_true_eq, div_lt_div_iff₀ (by positivity) (by positivity)]
  constructor
  · intro h; exact_mod_cast h
  · intro h; exact_mod_cast h

theorem DecNum.lt_eq_decide (a b : DecNum) : a.lt b = decide (a.toRat < b.toRat) := by
  rcases h : a.lt b with _ | _
  · have := mt (DecNum.lt_iff a b).mpr (by simp [h])
    simp [decide_eq_false_iff_not.mpr this]
  · simp [decide_eq_true_eq.mpr ((DecNum.lt_iff a b).mp h)]

/-- Every record contributed by a line is the record of some registry entry. -/
theorem mem_perLineRecords {l : List Char} {r : ExtractedValue}
    (hr : r ∈ perLineRecords l) : ∃ t ∈ registry, r = mkRec t.key l := by
  rcases List.mem_filterMap.mp hr with ⟨t, ht, hg⟩
  unfold entryRecord at hg
  rcases Option.map_eq_some'.mp hg with ⟨nm, _, hrec⟩
  exact ⟨t, ht, hrec.symm⟩

/-- Every pre-deduplication record comes from some parsed line and entry. -/
theorem mem_foundRecords {s : String} {r : ExtractedValue}
    (hr : r ∈ foundRecords s) :
    ∃ l ∈ parsedLines s, ∃ t ∈ registry, r = mkRec t.key l := by
  rcases List.mem_flatMap.mp hr with ⟨l, hl, hpl⟩
  rcases mem_perLineRecords hpl with ⟨t, ht, hrec⟩
  exact ⟨l, hl, t, ht, hrec⟩

/-- A line without digit characters has no numeric substrings. -/
theorem numsAux_no_digit (cs : List Char) (h : ∀ c ∈ cs, c.isDigit = false) :
    numsAux cs [] [] false = [] := by
  induction cs with
  | nil => rfl
  | cons c rest ih =>
    have hc : c.isDigit = false := h c (List.mem_cons_self c rest)
    have hrest : ∀ x ∈ rest, x.isDigit = false :=
      fun x hx => h x (List.mem_cons_of_mem c hx)
    simp [numsAux, hc, ih hrest]

theorem extractNums_no_digit (cs : List Char) (h : ∀ c ∈ cs, c.isDigit = false) :
    extractNums cs = [] := numsAux_no_digit cs h

/- ===================== Claims ===================== -/

/-- Claim C1: for every prediction record whose test name contains
"hemoglobin" (case-insensitive), the classifier applies the fixed
sex-dependent bounds (sex F: 12.0 and 16.0; sex M or unspecified: 13.0 and
17.5), classifies value < lower as "low", value > upper as "high", otherwise
"normal", and sets rule_overridden to true; no table or inline range is
consulted. -/
theorem applyHemoglobinRule_override (preds : List PredRecord)
    (items : List ItemRecord) (i : Nat) (p : PredRecord) (v : DecNum)
    (hp : preds[i]? = some p) (hh : hasHemoglobin p.test = true)
    (hv : p.value = some v) :
    (applyHemoglobinRule preds items)[i]? = some
      { p with
        prediction := some
          (if v.toRat < (if hemoSex items = "F" then (12 : ℚ) else 13) then "low"
           else if (if hemoSex items = "F" then (16 : ℚ) else 35/2) < v.toRat then "high"
           else "normal")
        rule_overridden := true } := by
  unfold applyHemoglobinRule
  rw [List.getElem?_map, hp, Option.map_some']
  by_cases hs : hemoSex items = "F" <;>
    simp only [hh, hv, hs, if_true, if_false, reduceIte, jsNum,
      DecNum.lt_eq_decide, decide_eq_true_eq] <;>
    norm_num [DecNum.toRat]

/-- Claim C1 witness. -/
theorem applyHemoglobinRule_override_witness :
    (applyHemoglobinRule [⟨"Hemoglobin", some ⟨11, 0⟩, none, false⟩] [])[0]? = some
      { test := "Hemoglobin", value := some ⟨11, 0⟩
        prediction := some
          (if (DecNum.mk 11 0).toRat < (if hemoSex [] = "F" then (12 : ℚ) else 13) then "low"
           else if (if hemoSex [] = "F" then (16 : ℚ) else 35/2) < (DecNum.mk 11 0).toRat then "high"
           else "normal")
        rule_overridden := true } :=
  applyHemoglobinRule_override _ _ 0 _ ⟨11, 0⟩ rfl (by decide) rfl

/-- Claim C2 (code bug evidence): a hemoglobin-named record with a null value
does NOT pass through unclassified — the JS comparison `p.value < lower`
coerces null to 0, so 0 < 13.0 holds and the classifier writes
prediction = "low" and rule_overridden = true, guessing a classification the
spec says must stay absent. -/
theorem applyHemoglobinRule_null_guessed_low :
    applyHemoglobinRule
        [{ test := "Hemoglobin", value := none, prediction := none, rule_overridden := false }] [] =
      [{ test := "Hemoglobin", value := none, prediction := some "low", rule_overridden := true }] := by
  decide

/-- Claim C6: end-to-end example.  The parser turns the single line
"Hemoglobin (g/dL): 11.2  (13.0-17.0)" into exactly one record with value
11.2 (= ⟨112,1⟩) and inline range 13.0–17.0 (= ⟨130,1⟩, ⟨170,1⟩); the
classifier with sex M ignores the inline range, applies the override bounds
13.0–17.5 and yields prediction "low" with rule_overridden true. -/
theorem hemoglobin_end_to_end :
    parseExtractedValues (some "Hemoglobin (g/dL): 11.2  (13.0-17.0)") =
      [{ test := "Hemoglobin", line := "Hemoglobin (g/dL): 11.2  (13.0-17.0)",
         value := some ⟨112, 1⟩, ref_lower := some ⟨130, 1⟩, ref_upper := some ⟨170, 1⟩ }] ∧
    (DecNum.mk 112 1).toRat = 11.2 ∧ (DecNum.mk 130 1).toRat = 13 ∧
    (DecNum.mk 170 1).toRat = 17 ∧
    applyHemoglobinRule
        [{ test := "Hemoglobin", value := some ⟨112, 1⟩, prediction := none, rule_overridden := false }]
        [{ test := "Hemoglobin", sex := some "M" }] =
      [{ test := "Hemoglobin", value := some ⟨112, 1⟩, prediction := some "low", rule_overridden := true }] := by
  refine ⟨by decide, by norm_num [DecNum.toRat], by norm_num [DecNum.toRat],
    by norm_num [DecNum.toRat], by decide⟩

/-- Claim C9 counterexample: the classifier does mutate its input records.
In the source the map callback assigns to the fields of each matching record
object and returns that same object, so after the call the contents of the
input array (`inputRecordsAfter`) differ from what was passed in. -/
theorem applyHemoglobinRule_mutates_input :
    inputRecordsAfter
        [{ test := "Hemoglobin", value := some ⟨10, 0⟩, prediction := none, rule_overridden := false }] [] ≠
      [{ test := "Hemoglobin", value := some ⟨10, 0⟩, prediction := none, rule_overridden := false }] := by
  decide

/-- Claim C9 as amended: the classifier updates hemoglobin-matching input
records in place — the output records are the input records themselves after
the call — overwriting only the prediction and rule_overridden fields of
matching records; records not matching hemoglobin are left unchanged. -/
theorem applyHemoglobinRule_mutation_frame (preds : List PredRecord)
    (items : List ItemRecord) (i : Nat) (p : PredRecord)
    (hp : preds[i]? = some p) :
    inputRecordsAfter preds items = applyHemoglobinRule preds items ∧
    ∃ q, (applyHemoglobinRule preds items)[i]? = some q ∧
      q.test = p.test ∧ q.value = p.value ∧
      (hasHemoglobin p.test = false → q = p) := by
  refine ⟨rfl, ?_⟩
  unfold applyHemoglobinRule
  rw [List.getElem?_map, hp, Option.map_some']
  refine ⟨_, rfl, ?_, ?_, fun hf => by simp [hf]⟩
  · by_cases hh : hasHemoglobin p.test <;> simp [hh]
  · by_cases hh : hasHemoglobin p.test <;> simp [hh]

/-- Claim C9 amended witness. -/
theorem applyHemoglobinRule_mutation_frame_witness :
    inputRecordsAfter
        [{ test := "WBC", value := some ⟨7, 0⟩, prediction := none, rule_overridden := false }] [] =
      applyHemoglobinRule
        [{ test := "WBC", value := some ⟨7, 0⟩, prediction := none, rule_overridden := false }] [] ∧
    ∃ q, (applyHemoglobinRule
        [{ test := "WBC", value := some ⟨7, 0⟩, prediction := none, rule_overridden := false }] [])[0]? = some q ∧
      q.test = "WBC" ∧ q.value = some ⟨7, 0⟩ ∧
      (hasHemoglobin "WBC" = false → q =
        { test := "WBC", value := some ⟨7, 0⟩, prediction := none, rule_overridden := false }) :=
  applyHemoglobinRule_mutation_frame _ [] 0 _ rfl

/-- Claim C10: records whose test name does not match hemoglobin are returned
completely unchanged by the override step, and the output has the same length
(and positions) as the input. -/
theorem applyHemoglobinRule_non_matching_unchanged (preds : List PredRecord)
    (items : List ItemRecord) (i : Nat) (p : PredRecord)
    (hp : preds[i]? = some p) (hnh : hasHemoglobin p.test = false) :
    (applyHemoglobinRule preds items).length = preds.length ∧
    (applyHemoglobinRule preds items)[i]? = some p := by
  constructor
  · simp [applyHemoglobinRule]
  · unfold applyHemoglobinRule
    rw [List.getElem?_map, hp, Option.map_some']
    simp [hnh]

/-- Claim C10 witness. -/
theorem applyHemoglobinRule_non_matching_unchanged_witness :
    (applyHemoglobinRule
        [{ test := "Sodium", value := some ⟨140, 0⟩, prediction := some "normal", rule_overridden := false }] []).length = 1 ∧
    (applyHemoglobinRule
        [{ test := "Sodium", value := some ⟨140, 0⟩, prediction := some "normal", rule_overridden := false }] [])[0]? =
      some { test := "Sodium", value := some ⟨140, 0⟩, prediction := some "normal", rule_overridden := false } :=
  applyHemoglobinRule_non_matching_unchanged _ [] 0 _ rfl (by decide)

/-- Claim C4: every record produced for a matched line carries as value the
first numeric substring of that line in left-to-right order, and null when
the line has no numeric substring (a numeric substring exists exactly when
the line has a digit character); the record is produced either way. -/
theorem found_value_is_first_number (s : String) (r : ExtractedValue)
    (hr : r ∈ foundRecords s) :
    r.value = (extractNums r.line.toList).head? ∧
    ((∀ c ∈ r.line.toList, c.isDigit = false) → r.value = none) := by
  rcases mem_foundRecords hr with ⟨l, _, t, _, rfl⟩
  refine ⟨rfl, fun h => ?_⟩
  show (extractNums l).head? = none
  rw [extractNums_no_digit l h]
  rfl

/-- Claim C4 witness: a matched line with no number yields a record with a
null value. -/
theorem found_value_is_first_number_witness :
    ({ test := "Sodium", line := "Sodium pending", value := none,
       ref_lower := none, ref_upper := none } : ExtractedValue).value =
        (extractNums ("Sodium pending" : String).toList).head? ∧
    ((∀ c ∈ ("Sodium pending" : String).toList, c.isDigit = false) →
      ({ test := "Sodium", line := "Sodium pending", value := none,
         ref_lower := none, ref_upper := none } : ExtractedValue).value = none) :=
  found_value_is_first_number "Sodium pending" _ (by decide)

/-- Claim C8: null or empty input yields the empty sequence, and so does any
text none of whose lines matches any surface pattern of any registry entry;
the parser is total, so no error can be raised. -/
theorem parse_absence_is_empty (s : String)
    (h : ∀ l ∈ parsedLines s, ∀ t ∈ registry, ∀ nm ∈ t.names,
      nameMatches nm l = false) :
    parseExtractedValues none = [] ∧ parseExtractedValues (some "") = [] ∧
    parseExtractedValues (some s) = [] := by
  refine ⟨rfl, rfl, ?_⟩
  by_cases hs : s = ""
  · simp [parseExtractedValues, hs]
  · have hf : foundRecords s = [] := by
      unfold foundRecords
      rw [List.flatMap_eq_nil_iff]
      intro l hl
      unfold perLineRecords
      rw [List.filterMap_eq_nil_iff]
      intro t ht
      unfold entryRecord
      have : t.names.find? (fun nm => nameMatches nm l) = none :=
        List.find?_eq_none.mpr (fun nm hnm => by simp [h l hl t ht nm hnm])
      rw [this]
      rfl
    simp [parseExtractedValues, hs, dedupRecords, hf, dedupAux]

/-- Claim C8 witness: a text recognising nothing parses to the empty list. -/
theorem parse_absence_is_empty_witness :
    parseExtractedValues none = [] ∧ parseExtractedValues (some "") = [] ∧
    parseExtractedValues (some "zzz qqq") = [] :=
  parse_absence_is_empty "zzz qqq" (by decide)

/-- The remaining characters returned by a greedy number parse form a sublist
of the input. -/
theorem takeNum_sublist (cs : List Char) (a : DecNum) (rest : List Char)
    (h : takeNum cs = some (a, rest)) : List.Sublist rest cs := by
  unfold takeNum at h
  split at h
  · rename_i c tail
    split at h
    · split at h
      · rename_i dot r2 hdrop
        split at h
        · simp only [Option.some.injEq, Prod.mk.injEq] at h
          rw [← h.2]
          have h1 : List.Sublist (r2.dropWhile Char.isDigit) r2 :=
            List.dropWhile_sublist _
          have h2 : List.Sublist r2 (dot :: r2) := List.sublist_cons_self _ _
          have h3 : List.Sublist (dot :: r2) (c :: tail) := by
            rw [← hdrop]; exact List.dropWhile_sublist _
          exact h1.trans (h2.trans h3)
        · simp only [Option.some.injEq, Prod.mk.injEq] at h
          rw [← h.2, ← hdrop]
          exact List.dropWhile_sublist _
      · simp only [Option.some.injEq, Prod.mk.injEq] at h
        rw [← h.2]
        exact List.nil_sublist _
    · exact absurd h (by simp)
  · exact absurd h (by simp)

/-- A successful range match contains a hyphen or en-dash character. -/
theorem matchRangeAt_dash (cs : List Char) (r : DecNum × DecNum)
    (h : matchRangeAt cs = some r) : ∃ c ∈ cs, c = '-' ∨ c = '–' := by
  unfold matchRangeAt at h
  split at h
  · exact absurd h (by simp)
  · rename_i a r1 ht
    split at h
    · rename_i d r3 hdrop
      split at h
      · rename_i hdash
        have hmem : d ∈ cs := by
          have h1 : d ∈ r1.dropWhile isJsSpace := by
            rw [hdrop]; exact List.mem_cons_self _ _
          exact ((List.dropWhile_sublist _).trans
            (takeNum_sublist cs a r1 ht)).subset h1
        refine ⟨d, hmem, ?_⟩
        rcases Bool.or_eq_true_iff.mp hdash with h1 | h1
        · exact Or.inl (by simpa using h1)
        · exact Or.inr (by simpa using h1)
      · exact absurd h (by simp)
    · exact absurd h (by simp)

/-- If the line has no dash character, no inline range is found. -/
theorem findRange_eq_none (cs : List Char)
    (h : ∀ c ∈ cs, ¬(c = '-' ∨ c = '–')) : findRange cs = none := by
  induction cs with
  | nil => rfl
  | cons c rest ih =>
    unfold findRange
    cases hm : matchRangeAt (c :: rest) with
    | some q =>
      rcases matchRangeAt_dash _ q hm with ⟨d, hdm, hdd⟩
      exact absurd hdd (h d hdm)
    | none => exact ih (fun x hx => h x (List.mem_cons_of_mem c hx))

/-- Claim C5: every record produced for a matched line carries as inline
reference bounds the two numbers of the leftmost occurrence of the pattern
`<number> [-|–] <number>` (the JS regex with optional surrounding `\s*`),
and both bounds are null when the line contains no such occurrence — in
particular when the line has no dash character at all. -/
theorem found_range_is_first_range (s : String) (r : ExtractedValue)
    (hr : r ∈ foundRecords s) :
    r.ref_lower = (findRange r.line.toList).map (fun q => q.1) ∧
    r.ref_upper = (findRange r.line.toList).map (fun q => q.2) ∧
    ((∀ c ∈ r.line.toList, ¬(c = '-' ∨ c = '–')) →
      r.ref_lower = none ∧ r.ref_upper = none) := by
  rcases mem_foundRecords hr with ⟨l, _, t, _, rfl⟩
  refine ⟨rfl, rfl, fun h => ?_⟩
  have hn : findRange l = none := findRange_eq_none l h
  show (findRange l).map _ = none ∧ (findRange l).map _ = none
  rw [hn]
  exact ⟨rfl, rfl⟩

/-- Claim C5 witness: a line whose range separates the dash with Unicode thin
spaces (U+2009), as PDF extraction often produces, still yields both bounds
from the first occurrence of the pattern. -/
theorem found_range_is_first_range_witness :
    ({ test := "Urea", line := "Urea 2.5\u2009-\u20097.1", value := some ⟨25, 1⟩,
       ref_lower := some ⟨25, 1⟩, ref_upper := some ⟨71, 1⟩ } : ExtractedValue).ref_lower =
        (findRange ("Urea 2.5\u2009-\u20097.1" : String).toList).map (fun q => q.1) ∧
    ({ test := "Urea", line := "Urea 2.5\u2009-\u20097.1", value := some ⟨25, 1⟩,
       ref_lower := some ⟨25, 1⟩, ref_upper := some ⟨71, 1⟩ } : ExtractedValue).ref_upper =
        (findRange ("Urea 2.5\u2009-\u20097.1" : String).toList).map (fun q => q.2) ∧
    ((∀ c ∈ ("Urea 2.5\u2009-\u20097.1" : String).toList, ¬(c = '-' ∨ c = '–')) →
      ({ test := "Urea", line := "Urea 2.5\u2009-\u20097.1", value := some ⟨25, 1⟩,
         ref_lower := some ⟨25, 1⟩, ref_upper := some ⟨71, 1⟩ } : ExtractedValue).ref_lower = none ∧
      ({ test := "Urea", line := "Urea 2.5\u2009-\u20097.1", value := some ⟨25, 1⟩,
         ref_lower := some ⟨25, 1⟩, ref_upper := some ⟨71, 1⟩ } : ExtractedValue).ref_upper = none) :=
  found_range_is_first_range "Urea 2.5\u2009-\u20097.1" _ (by decide)

/-- A record contributed by an entry carries the canonical key of that entry. -/
theorem entryRecord_test (l : List Char) (t : TestEntry) (r : ExtractedValue)
    (h : entryRecord l t = some r) : r.test = t.key := by
  unfold entryRecord at h
  rcases Option.map_eq_some'.mp h with ⟨nm, _, hrec⟩
  rw [← hrec]
  rfl

/-- Entries whose key differs from `k` contribute nothing to the filter. -/
theorem filterMap_entry_filter_nil (l : List Char) (k : String) :
    ∀ ts : List TestEntry, (∀ t' ∈ ts, t'.key ≠ k) →
      (ts.filterMap (entryRecord l)).filter (fun r => r.test == k) = [] := by
  intro ts
  induction ts with
  | nil => intro _; rfl
  | cons t0 rest ih =>
    intro h
    rw [List.filterMap_cons]
    cases hg : entryRecord l t0 with
    | none => exact ih (fun t' ht' => h t' (List.mem_cons_of_mem _ ht'))
    | some r =>
      rw [List.filter_cons_of_neg]
      · exact ih (fun t' ht' => h t' (List.mem_cons_of_mem _ ht'))
      · have hk := entryRecord_test l t0 r hg
        simp [hk, h t0 (List.mem_cons_self _ _)]

/-- Over any entry list with pairwise distinct keys, one entry contributes
exactly one record when some of its surface patterns matches and none
otherwise. -/
theorem filterMap_entry_count (l : List Char) :
    ∀ ts : List TestEntry, (ts.map TestEntry.key).Nodup → ∀ t ∈ ts,
      ((ts.filterMap (entryRecord l)).filter (fun r => r.test == t.key)).length =
        if t.names.any (fun nm => nameMatches nm l) then 1 else 0 := by
  intro ts
  induction ts with
  | nil => intro _ t ht; exact absurd ht (List.not_mem_nil t)
  | cons t0 rest ih =>
    intro hnd t ht
    have hkey : t0.key ∉ rest.map TestEntry.key := (List.nodup_cons.mp hnd).1
    have hnd2 : (rest.map TestEntry.key).Nodup := (List.nodup_cons.mp hnd).2
    rw [List.filterMap_cons]
    rcases List.mem_cons.mp ht with heq | htr
    · subst heq
      cases hg : entryRecord l t with
      | none =>
        have hany : (t.names.any (fun nm => nameMatches nm l)) = false := by
          unfold entryRecord at hg
          rw [Option.map_eq_none'] at hg
          rw [List.any_eq_false]
          intro nm hnm
          simpa using List.find?_eq_none.mp hg nm hnm
        rw [hany, filterMap_entry_filter_nil l t.key rest
          (fun t' ht' hk => hkey (hk ▸ List.mem_map.mpr ⟨t', ht', rfl⟩))]
        rfl
      | some r =>
        have hany : (t.names.any (fun nm => nameMatches nm l)) = true := by
          unfold entryRecord at hg
          rcases Option.map_eq_some'.mp hg with ⟨nm, hfind, _⟩
          rw [List.any_eq_true]
          exact ⟨nm, List.mem_of_find?_eq_some hfind,
            by simpa using List.find?_some hfind⟩
        rw [hany, List.filter_cons_of_pos (by simp [entryRecord_test l t r hg]),
          filterMap_entry_filter_nil l t.key rest
            (fun t' ht' hk => hkey (hk ▸ List.mem_map.mpr ⟨t', ht', rfl⟩))]
        rfl
    · have hne : t0.key ≠ t.key :=
        fun hk => hkey (hk ▸ List.mem_map.mpr ⟨t, htr, rfl⟩)
      cases hg : entryRecord l t0 with
      | none => exact ih hnd2 t htr
      | some r =>
        rw [List.filter_cons_of_neg (by simp [entryRecord_test l t0 r hg, hne])]
        exact ih hnd2 t htr

/-- The registry has pairwise distinct canonical keys. -/
theorem registry_keys_nodup : (registry.map TestEntry.key).Nodup := by decide

/-- Claim C7: each registry entry is evaluated independently per line — a
line contributes exactly one record for every entry with a matching surface
pattern (so several matched entries give several records), at most one record
per entry, and the record for an entry is determined by the canonical key and
the line alone (the first matching pattern wins; which pattern matched does
not change the record). -/
theorem perLine_one_record_per_entry (l : List Char) (t : TestEntry)
    (ht : t ∈ registry) :
    ((perLineRecords l).filter (fun r => r.test == t.key)).length =
      (if t.names.any (fun nm => nameMatches nm l) then 1 else 0) ∧
    (∀ r ∈ perLineRecords l, r.test == t.key → r = mkRec t.key l) := by
  constructor
  · exact filterMap_entry_count l registry registry_keys_nodup t ht
  · intro r hr hkey
    rcases mem_perLineRecords hr with ⟨t2, _, rfl⟩
    have hk : t2.key = t.key := by simpa [mkRec] using hkey
    rw [hk]

/-- Claim C7 witness: a line matching two entries contributes one record to
each of the two keys. -/
theorem perLine_one_record_per_entry_witness :
    (((perLineRecords ("Hemoglobin RBC 5" : String).toList).filter
        (fun r => r.test == "Hemoglobin")).length =
      (if (["Hemoglobin", "Hemoglobin (g/dL)"] : List String).any
          (fun nm => nameMatches nm ("Hemoglobin RBC 5" : String).toList) then 1 else 0)) ∧
    (∀ r ∈ perLineRecords ("Hemoglobin RBC 5" : String).toList,
      r.test == "Hemoglobin" → r = mkRec "Hemoglobin" ("Hemoglobin RBC 5" : String).toList) :=
  perLine_one_record_per_entry ("Hemoglobin RBC 5" : String).toList
    ⟨"Hemoglobin", ["Hemoglobin", "Hemoglobin (g/dL)"]⟩ (by decide)

/-- Deduplication yields a subsequence of its input (scan order preserved). -/
theorem dedupAux_sublist :
    ∀ (l : List ExtractedValue) (seen : List String),
      List.Sublist (dedupAux seen l) l := by
  intro l
  induction l with
  | nil => intro seen; exact List.Sublist.refl _
  | cons f rest ih =>
    intro seen
    unfold dedupAux
    by_cases hc : seen.contains f.test = true
    · rw [if_pos hc]
      exact (ih seen).trans (List.sublist_cons_self _ _)
    · rw [if_neg hc]
      exact List.Sublist.cons₂ _ (ih (f.test :: seen))

/-- Every record surviving deduplication has a key outside `seen` and is the
first record of the input with its key. -/
theorem dedupAux_mem :
    ∀ (l : List ExtractedValue) (seen : List String) (r : ExtractedValue),
      r ∈ dedupAux seen l →
        r.test ∉ seen ∧ l.find? (fun f => f.test == r.test) = some r := by
  intro l
  induction l with
  | nil =>
    intro seen r hr
    simp [dedupAux] at hr
  | cons f rest ih =>
    intro seen r hr
    unfold dedupAux at hr
    by_cases hc : seen.contains f.test = true
    · rw [if_pos hc] at hr
      obtain ⟨hnot, hfind⟩ := ih seen r hr
      have hne : f.test ≠ r.test :=
        fun he => hnot (he ▸ List.elem_iff.mp hc)
      refine ⟨hnot, ?_⟩
      rw [List.find?_cons_of_neg _ (by simp [hne])]
      exact hfind
    · rw [if_neg hc] at hr
      rcases List.mem_cons.mp hr with rfl | hr2
      · refine ⟨fun hmem => hc (List.elem_iff.mpr hmem), ?_⟩
        exact List.find?_cons_of_pos _ (by simp)
      · obtain ⟨hnot, hfind⟩ := ih (f.test :: seen) r hr2
        have hns : r.test ∉ seen := fun hm => hnot (List.mem_cons_of_mem _ hm)
        have hne : f.test ≠ r.test :=
          fun he => hnot (by rw [← he]; exact List.mem_cons_self _ _)
        refine ⟨hns, ?_⟩
        rw [List.find?_cons_of_neg _ (by simp [hne])]
        exact hfind

/-- The keys of the deduplicated list are pairwise distinct. -/
theorem dedupAux_keys_nodup :
    ∀ (l : List ExtractedValue) (seen : List String),
      ((dedupAux seen l).map ExtractedValue.test).Nodup := by
  intro l
  induction l with
  | nil => intro seen; simp [dedupAux]
  | cons f rest ih =>
    intro seen
    unfold dedupAux
    by_cases hc : seen.contains f.test = true
    · rw [if_pos hc]; exact ih seen
    · rw [if_neg hc, List.map_cons, List.nodup_cons]
      refine ⟨?_, ih (f.test :: seen)⟩
      intro hmem
      rcases List.mem_map.mp hmem with ⟨r, hr, hre⟩
      have hout := (dedupAux_mem rest (f.test :: seen) r hr).1
      exact hout (by rw [hre]; exact List.mem_cons_self _ _)

/-- Claim C3: the parser output has at most one record per canonical test key
(the key list is duplicate free), the record kept for a key is the first
line-match encountered in scan order (the first record of the pre-dedup list
with that key), and the output is a subsequence of the pre-dedup list, so
first-seen order is preserved. -/
theorem parser_dedup_first_wins (s : String) (r : ExtractedValue)
    (hr : r ∈ parseExtractedValues (some s)) :
    ((parseExtractedValues (some s)).map ExtractedValue.test).Nodup ∧
    (foundRecords s).find? (fun f => f.test == r.test) = some r ∧
    List.Sublist (parseExtractedValues (some s)) (foundRecords s) := by
  by_cases hs : s = ""
  · rw [hs] at hr
    exact absurd hr (by simp [parseExtractedValues])
  · have hparse : parseExtractedValues (some s) = dedupAux [] (foundRecords s) := by
      simp [parseExtractedValues, hs, dedupRecords]
    rw [hparse] at hr ⊢
    exact ⟨dedupAux_keys_nodup _ _, (dedupAux_mem _ _ r hr).2, dedupAux_sublist _ _⟩

/-- Claim C3 witness: with the same test name on two lines, the single kept
record is the first match. -/
theorem parser_dedup_first_wins_witness :
    ((parseExtractedValues (some "WBC 5\nWBC 9")).map ExtractedValue.test).Nodup ∧
    (foundRecords "WBC 5\nWBC 9").find? (fun f => f.test == "WBC") =
      some { test := "WBC", line := "WBC 5", value := some ⟨5, 0⟩,
             ref_lower := none, ref_upper := none } ∧
    List.Sublist (parseExtractedValues (some "WBC 5\nWBC 9")) (foundRecords "WBC 5\nWBC 9") :=
  parser_dedup_first_wins "WBC 5\nWBC 9"
    { test := "WBC", line := "WBC 5", value := some ⟨5, 0⟩,
      ref_lower := none, ref_upper := none } (by decide)
